import Mathlib

/-!
# Verification of `NaiveKMeans::Iterate`
  (src/mlpack/methods/kmeans/naive_kmeans_impl.hpp)

Shallow embedding of one Lloyd-iteration step of the naive k-means kernel.

Modelling conventions:
* A column-major `D × N` armadillo matrix is embedded as a function
  `ℕ → ℕ → ℚ`, where `m i d` is row `d` of column `i`; only indices
  `i < N`, `d < D` are ever read by the embedded code.
* `double` arithmetic is embedded as exact rational arithmetic `ℚ`
  (the spec's claims are about exact/ideal arithmetic); the one
  irrational operation, `arma::norm(·, 2)` (an L2 norm, hence a square
  root), is embedded over `ℝ` with `Real.sqrt`.
* The sentinel `std::numeric_limits<double>::max()` used to initialise
  `minDistance` acts, for finite data, as +∞: it is embedded as
  `Option ℚ` with `none` standing for the not-yet-assigned sentinel.
* OpenMP threading: the parallel region runs `effectiveThreads` threads
  over contiguous segments; each thread's local accumulation loop is
  embedded as a left fold in index order over its segment, and the
  `omp critical` merge as a sum over threads (for the canonical run)
  or a fold over an arbitrary permutation of the thread ids (to model
  nondeterministic merge order).
* `size_t` division is `Nat` division.  Note that in C++ a division by
  zero (which the source performs whenever `points < 100`, because then
  `effectiveThreads = 0`) is undefined behaviour; Lean's `Nat` division
  totalises it as `0`.  Theorems about that regime model the observable
  "no thread runs" degenerate state and are flagged as code bugs.
-/

namespace NaiveKMeans

/-! ## Work partitioner (lines 53–57, 64–66 of the source) -/

/-- Line 55: `const size_t minVectorsPerThread = 100;`. -/
def minVectorsPerThread : ℕ := 100

/-- Line 54: `std::max(1, omp_get_max_threads())`, with the host-reported
maximum thread count as a parameter. -/
def numThreads (ompMaxThreads : ℕ) : ℕ := max 1 ompMaxThreads

/-- Line 56: `std::min(numThreads, points / minVectorsPerThread)`.
Note the absence of any clamp to 1: for `points < 100` this is `0`. -/
def effectiveThreads (numThreads points : ℕ) : ℕ :=
  min numThreads (points / minVectorsPerThread)

/-- Line 57: `points / effectiveThreads`.  In C++ this is undefined
behaviour when `effectiveThreads = 0`; Lean `Nat` division yields `0`. -/
def nominalSegmentSize (points effectiveThreads : ℕ) : ℕ :=
  points / effectiveThreads

/-- Line 65: `threadId * nominalSegmentSize`. -/
def segmentStart (segSize t : ℕ) : ℕ := t * segSize

/-- Line 66: `(threadId == effectiveThreads - 1) ? points
  : (threadId + 1) * nominalSegmentSize`. -/
def segmentEnd (T segSize points t : ℕ) : ℕ :=
  if t = T - 1 then points else (t + 1) * segSize

/-! ## Norm cache and distance decomposition (lines 45–51, 74–84) -/

/-- `arma::dot` of two `D`-dimensional columns. -/
def dot (D : ℕ) (x y : ℕ → ℚ) : ℚ := ∑ d in Finset.range D, x d * y d

/-- Lines 46–51: `centroidNorms(j) = arma::dot(centroids.col(j),
centroids.col(j))`. -/
def centroidNorms (D : ℕ) (cent : ℕ → ℕ → ℚ) (j : ℕ) : ℚ :=
  dot D (cent j) (cent j)

/-- Line 84: the squared-Euclidean decomposition
`dist = dataNorm + centroidNorms(j) - 2 * dotProduct`. -/
def pointDist (D : ℕ) (point cj : ℕ → ℚ) (cnormj : ℚ) : ℚ :=
  dot D point point + cnormj - 2 * dot D point cj

/-- The textbook squared Euclidean distance, used as the reference the
decomposition is compared against. -/
def sqDist (D : ℕ) (x c : ℕ → ℚ) : ℚ :=
  ∑ d in Finset.range D, (x d - c d) ^ 2

/-! ## Nearest-centroid assignment (lines 70–91) -/

/-- One step of the inner `for (j …)` loop of lines 78–91: the running
state is `(minDistance, closestCluster)`, with `none` standing for the
`std::numeric_limits<double>::max()` sentinel, and the update guarded by
the strict comparison `dist < minDistance` of line 86. -/
def assignStep (distf : ℕ → ℚ) (acc : Option ℚ × ℕ) (j : ℕ) : Option ℚ × ℕ :=
  match acc with
  | (none, _) => (some (distf j), j)
  | (some m, jc) => if distf j < m then (some (distf j), j) else (some m, jc)

/-- Lines 70–91: run the inner loop over `j = 0, …, K-1` starting from
`minDistance = DBL_MAX` (sentinel `none`) and `closestCluster = clusters`
(line 71). -/
def findClosest (K : ℕ) (distf : ℕ → ℚ) : Option ℚ × ℕ :=
  (List.range K).foldl (assignStep distf) (none, K)

/-- The distance function the source evaluates for point `x` against
centroid `j`: the decomposition with the cached centroid norm. -/
def distTo (D : ℕ) (cent : ℕ → ℕ → ℚ) (x : ℕ → ℚ) (j : ℕ) : ℚ :=
  pointDist D x (cent j) (centroidNorms D cent j)

/-- The winning cluster index for point `i` (line 89's final value of
`closestCluster`). -/
def closestCluster (D K : ℕ) (data cent : ℕ → ℕ → ℚ) (i : ℕ) : ℕ :=
  (findClosest K (distTo D cent (data i))).2

/-! ## Thread-local accumulation (lines 61–96) -/

/-- Lines 94–95: add point `i` into its winning cluster's local sum
column and bump that cluster's local count.  The accumulator pair is
`(localCentroids, localCounts)`. -/
def accumPoint (D K : ℕ) (data cent : ℕ → ℕ → ℚ)
    (acc : (ℕ → ℕ → ℚ) × (ℕ → ℕ)) (i : ℕ) : (ℕ → ℕ → ℚ) × (ℕ → ℕ) :=
  let c := closestCluster D K data cent i
  (fun j d => if j = c then acc.1 j d + data i d else acc.1 j d,
   fun j => if j = c then acc.2 j + 1 else acc.2 j)

/-- Lines 61–96: one thread's work — zero-initialised local buffers
(lines 61–62), then the `for (i = segmentStart; i < segmentEnd; ++i)`
loop in index order. -/
def threadLocal (D K : ℕ) (data cent : ℕ → ℕ → ℚ) (lo hi : ℕ) :
    (ℕ → ℕ → ℚ) × (ℕ → ℕ) :=
  (List.range' lo (hi - lo)).foldl (accumPoint D K data cent)
    (fun _ _ => 0, fun _ => 0)

/-! ## Merge (lines 99–103) -/

/-- The counts merged over threads `t = 0, …, T-1` (the `omp critical`
additions of line 102, in canonical order; commutativity of `ℕ` addition
makes the order immaterial, which claim C10 states explicitly). -/
def mergedCounts (D K : ℕ) (data cent : ℕ → ℕ → ℚ) (T s N j : ℕ) : ℕ :=
  ∑ t in Finset.range T,
    (threadLocal D K data cent (segmentStart s t) (segmentEnd T s N t)).2 j

/-- The centroid-sum matrix merged over threads (line 101). -/
def mergedSum (D K : ℕ) (data cent : ℕ → ℕ → ℚ) (T s N j d : ℕ) : ℚ :=
  ∑ t in Finset.range T,
    (threadLocal D K data cent (segmentStart s t) (segmentEnd T s N t)).1 j d

/-- The merge performed in an explicit order over thread ids: each entry
of `order` contributes its thread's local count, left to right,
modelling an arbitrary interleaving of the `omp critical` sections. -/
def orderedMergedCounts (D K : ℕ) (data cent : ℕ → ℕ → ℚ)
    (order : List ℕ) (T s N j : ℕ) : ℕ :=
  (order.map (fun t =>
    (threadLocal D K data cent (segmentStart s t) (segmentEnd T s N t)).2 j)).sum

/-! ## Normalisation (lines 106–113) and shift (lines 115–121) -/

/-- Lines 106–113: `if (counts(j) > 0) newCentroids.col(j) /= counts(j)`,
otherwise the accumulated column is left as-is. -/
def newCentroidsFrom (counts : ℕ → ℕ) (sums : ℕ → ℕ → ℚ) (j d : ℕ) : ℚ :=
  if 0 < counts j then sums j d / (counts j : ℚ) else sums j d

/-- One term of the distortion loop: `arma::norm(centroids.col(j) -
newCentroids.col(j), 2)`, i.e. the square root of the sum of squared
per-coordinate differences. -/
noncomputable def clusterShiftTerm (D : ℕ) (cent nc : ℕ → ℕ → ℚ) (j : ℕ) : ℝ :=
  Real.sqrt ((∑ d in Finset.range D, (cent j d - nc j d) ^ 2 : ℚ) : ℝ)

/-- Lines 116–121: the `cNorm` accumulation loop (an OpenMP `+`
reduction; its sequential semantics is a left fold starting from
`cNorm = 0.0`). -/
noncomputable def iterateShift (D K : ℕ) (cent nc : ℕ → ℕ → ℚ) : ℝ :=
  (List.range K).foldl (fun acc j => acc + clusterShiftTerm D cent nc j) 0

/-! ## The whole `Iterate` call -/

/-- The effective thread count a call with `points` points uses, given
the host-reported `omp_get_max_threads()` value. -/
def iterateThreads (ompMax points : ℕ) : ℕ :=
  effectiveThreads (numThreads ompMax) points

/-- The nominal segment size of such a call. -/
def iterateSegSize (ompMax points : ℕ) : ℕ :=
  nominalSegmentSize points (iterateThreads ompMax points)

/-- The `counts` output of `Iterate`. -/
def iterateCounts (D K N ompMax : ℕ) (data cent : ℕ → ℕ → ℚ) (j : ℕ) : ℕ :=
  mergedCounts D K data cent (iterateThreads ompMax N) (iterateSegSize ompMax N) N j

/-- The accumulated (pre-normalisation) `newCentroids` matrix of
`Iterate`, right after the merge barrier. -/
def iterateAccumSum (D K N ompMax : ℕ) (data cent : ℕ → ℕ → ℚ) (j d : ℕ) : ℚ :=
  mergedSum D K data cent (iterateThreads ompMax N) (iterateSegSize ompMax N) N j d

/-- The finalised `newCentroids` output of `Iterate`. -/
def iterateNewCentroids (D K N ompMax : ℕ) (data cent : ℕ → ℕ → ℚ) (j d : ℕ) : ℚ :=
  newCentroidsFrom (iterateCounts D K N ompMax data cent)
    (iterateAccumSum D K N ompMax data cent) j d

/-- The scalar `Iterate` returns (`cNorm`, line 125). -/
noncomputable def iterateTotalShift (D K N ompMax : ℕ)
    (data cent : ℕ → ℕ → ℚ) : ℝ :=
  iterateShift D K cent (iterateNewCentroids D K N ompMax data cent)

/-! ## Sequential reference values -/

/-- The number of points among `0, …, N-1` assigned to cluster `j`
(the single-thread reference). -/
def countsOf (D K N : ℕ) (data cent : ℕ → ℕ → ℚ) (j : ℕ) : ℕ :=
  ((Finset.range N).filter (fun i => closestCluster D K data cent i = j)).card

/-- The coordinate-wise sum of the points assigned to cluster `j`
(the single-thread reference). -/
def sumOf (D K N : ℕ) (data cent : ℕ → ℕ → ℚ) (j d : ℕ) : ℚ :=
  ∑ i in (Finset.range N).filter (fun i => closestCluster D K data cent i = j),
    data i d

/-! ## Concrete inputs used by the scenario claims -/

/-- The dataset of the concrete scenario (spec §8):
`{(0,0), (0,1), (5,5), (5,6)}`, column-major (`scenarioData i d` is
coordinate `d` of point `i`). -/
def scenarioData : ℕ → ℕ → ℚ
  | 0, 0 => 0
  | 0, 1 => 0
  | 1, 0 => 0
  | 1, 1 => 1
  | 2, 0 => 5
  | 2, 1 => 5
  | 3, 0 => 5
  | 3, 1 => 6
  | _, _ => 0

/-- The initial centroids of the concrete scenario: `{(0,0), (5,5)}`. -/
def scenarioCentroids : ℕ → ℕ → ℚ
  | 0, 0 => 0
  | 0, 1 => 0
  | 1, 0 => 5
  | 1, 1 => 5
  | _, _ => 0

/-- The converged centroids of the scenario: `{(0, 1/2), (5, 11/2)}`,
the exact per-cluster means of the scenario dataset. -/
def convergedCentroids : ℕ → ℕ → ℚ
  | 0, 0 => 0
  | 0, 1 => 1/2
  | 1, 0 => 5
  | 1, 1 => 11/2
  | _, _ => 0

/-- A trivial dataset/centroid matrix (all zeros), used for witnesses. -/
def zeroMat : ℕ → ℕ → ℚ := fun _ _ => 0

/-- A centroid matrix whose column `j` is constantly `j`, used for
witnesses. -/
def rampCent : ℕ → ℕ → ℚ := fun j _ => (j : ℚ)

/-- `cent` is a fixed point of the Lloyd update on `data`: every cluster
attracts at least one point, and each centroid column equals the exact
mean of the points assigned to it under those same centroids. -/
def isFixedPoint (D K N : ℕ) (data cent : ℕ → ℕ → ℚ) : Prop :=
  ∀ j < K, 0 < countsOf D K N data cent j ∧
    ∀ d < D, cent j d
      = sumOf D K N data cent j d / (countsOf D K N data cent j : ℚ)

/-! ## Invariant of the nearest-centroid loop -/

/-- The invariant the inner assignment loop maintains: a valid winning
index that attains the minimum, whose recorded distance is strictly
below every earlier candidate's distance (the strict `<` of line 86). -/
def loopInv (f : ℕ → ℚ) (K : ℕ) (r : Option ℚ × ℕ) : Prop :=
  r.2 < K ∧ r.1 = some (f r.2) ∧ (∀ j < K, f r.2 ≤ f j) ∧ ∀ j < r.2, f r.2 < f j

theorem findClosest_go (f : ℕ → ℚ) :
    ∀ K c, 0 < K → loopInv f K ((List.range K).foldl (assignStep f) (none, c)) := by
  intro K
  induction K with
  | zero => intro c h; exact absurd h (lt_irrefl 0)
  | succ K ih =>
    intro c _
    rcases Nat.eq_zero_or_pos K with hK0 | hKpos
    · subst hK0
      have hred : (List.range 1).foldl (assignStep f) (none, c) = (some (f 0), 0) := rfl
      rw [hred]
      refine ⟨Nat.zero_lt_one, rfl, ?_, ?_⟩
      · intro j hj
        have hj0 : j = 0 := by omega
        subst hj0
        exact le_refl _
      · intro j hj
        exact absurd hj (Nat.not_lt_zero j)
    · obtain ⟨h1, h2, h3, h4⟩ := ih c hKpos
      rw [List.range_succ, List.foldl_append, List.foldl_cons, List.foldl_nil]
      set r := (List.range K).foldl (assignStep f) (none, c) with hr
      obtain ⟨ro, ri⟩ := r
      simp only at h1 h2 h3 h4
      subst h2
      by_cases hlt : f K < f ri
      · simp only [assignStep, if_pos hlt]
        refine ⟨Nat.lt_succ_self K, rfl, ?_, ?_⟩
        · intro j hj
          rcases Nat.lt_succ_iff_lt_or_eq.mp hj with hj' | hj'
          · exact le_of_lt (lt_of_lt_of_le hlt (h3 j hj'))
          · subst hj'; exact le_refl _
        · intro j hj
          exact lt_of_lt_of_le hlt (h3 j hj)
      · simp only [assignStep, if_neg hlt]
        refine ⟨Nat.lt_succ_of_lt h1, rfl, ?_, h4⟩
        intro j hj
        rcases Nat.lt_succ_iff_lt_or_eq.mp hj with hj' | hj'
        · exact h3 j hj'
        · subst hj'; exact not_lt.mp hlt

theorem findClosest_spec (K : ℕ) (f : ℕ → ℚ) (hK : 0 < K) :
    loopInv f K (findClosest K f) :=
  findClosest_go f K K hK

/-- When `K > 0` the assigned index is always a valid cluster index. -/
theorem closestCluster_lt (D K : ℕ) (data cent : ℕ → ℕ → ℚ) (i : ℕ)
    (hK : 0 < K) : closestCluster D K data cent i < K :=
  (findClosest_spec K (distTo D cent (data i)) hK).1

/-- The norm-decomposition distance of line 84 agrees, in exact
arithmetic, with the textbook squared Euclidean distance. -/
theorem pointDist_eq_sqDist (D : ℕ) (x c : ℕ → ℚ) :
    pointDist D x c (dot D c c) = sqDist D x c := by
  unfold pointDist sqDist dot
  rw [Finset.mul_sum, ← Finset.sum_add_distrib, ← Finset.sum_sub_distrib]
  exact Finset.sum_congr rfl (fun d _ => by ring)

theorem distTo_eq_sqDist (D : ℕ) (cent : ℕ → ℕ → ℚ) (x : ℕ → ℚ) (j : ℕ) :
    distTo D cent x j = sqDist D x (cent j) :=
  pointDist_eq_sqDist D x (cent j)

/-! ## Characterisation of the thread-local accumulation loop -/

theorem foldl_accumPoint_counts (D K : ℕ) (data cent : ℕ → ℕ → ℚ) :
    ∀ (n lo : ℕ) (acc : (ℕ → ℕ → ℚ) × (ℕ → ℕ)) (j : ℕ),
      ((List.range' lo n).foldl (accumPoint D K data cent) acc).2 j
        = acc.2 j + ((Finset.Ico lo (lo + n)).filter
            (fun i => closestCluster D K data cent i = j)).card := by
  intro n
  induction n with
  | zero => intro lo acc j; simp
  | succ n ih =>
    intro lo acc j
    rw [List.range'_succ, List.foldl_cons, ih]
    have hIco : Finset.Ico lo (lo + (n + 1))
        = insert lo (Finset.Ico (lo + 1) (lo + 1 + n)) := by
      rw [show lo + 1 + n = lo + (n + 1) from by omega]
      exact (Nat.Ico_insert_succ_left (by omega)).symm
    have hnm : lo ∉ (Finset.Ico (lo + 1) (lo + 1 + n)).filter
        (fun i => closestCluster D K data cent i = j) := by
      simp [Finset.mem_Ico]
    rw [hIco, Finset.filter_insert]
    by_cases hp : closestCluster D K data cent lo = j
    · rw [if_pos hp, Finset.card_insert_of_not_mem hnm]
      simp only [accumPoint]
      rw [if_pos hp.symm]
      omega
    · rw [if_neg hp]
      simp only [accumPoint]
      rw [if_neg (fun h => hp h.symm)]

theorem foldl_accumPoint_sums (D K : ℕ) (data cent : ℕ → ℕ → ℚ) :
    ∀ (n lo : ℕ) (acc : (ℕ → ℕ → ℚ) × (ℕ → ℕ)) (j d : ℕ),
      ((List.range' lo n).foldl (accumPoint D K data cent) acc).1 j d
        = acc.1 j d + ∑ i in (Finset.Ico lo (lo + n)).filter
            (fun i => closestCluster D K data cent i = j), data i d := by
  intro n
  induction n with
  | zero => intro lo acc j d; simp
  | succ n ih =>
    intro lo acc j d
    rw [List.range'_succ, List.foldl_cons, ih]
    have hIco : Finset.Ico lo (lo + (n + 1))
        = insert lo (Finset.Ico (lo + 1) (lo + 1 + n)) := by
      rw [show lo + 1 + n = lo + (n + 1) from by omega]
      exact (Nat.Ico_insert_succ_left (by omega)).symm
    have hnm : lo ∉ (Finset.Ico (lo + 1) (lo + 1 + n)).filter
        (fun i => closestCluster D K data cent i = j) := by
      simp [Finset.mem_Ico]
    rw [hIco, Finset.filter_insert]
    by_cases hp : closestCluster D K data cent lo = j
    · rw [if_pos hp, Finset.sum_insert hnm]
      simp only [accumPoint]
      rw [if_pos hp.symm]
      ring
    · rw [if_neg hp]
      simp only [accumPoint]
      rw [if_neg (fun h => hp h.symm)]

theorem threadLocal_counts (D K : ℕ) (data cent : ℕ → ℕ → ℚ) (lo hi j : ℕ)
    (h : lo ≤ hi) :
    (threadLocal D K data cent lo hi).2 j
      = ((Finset.Ico lo hi).filter
          (fun i => closestCluster D K data cent i = j)).card := by
  unfold threadLocal
  rw [foldl_accumPoint_counts, show lo + (hi - lo) = hi from by omega]
  simp

theorem threadLocal_sums (D K : ℕ) (data cent : ℕ → ℕ → ℚ) (lo hi j d : ℕ)
    (h : lo ≤ hi) :
    (threadLocal D K data cent lo hi).1 j d
      = ∑ i in (Finset.Ico lo hi).filter
          (fun i => closestCluster D K data cent i = j), data i d := by
  unfold threadLocal
  rw [foldl_accumPoint_sums, show lo + (hi - lo) = hi from by omega]
  simp

/-! ## The chunks of the work partitioner cover `[0, N)` exactly -/

theorem sum_blocks {M : Type} [AddCommMonoid M] (g : ℕ → M) (s : ℕ) :
    ∀ m, (∑ t in Finset.range m, ∑ i in Finset.Ico (t * s) ((t + 1) * s), g i)
      = ∑ i in Finset.Ico 0 (m * s), g i := by
  intro m
  induction m with
  | zero => simp
  | succ m ih =>
    rw [Finset.sum_range_succ, ih,
      Finset.sum_Ico_consecutive g (Nat.zero_le _)
        (Nat.mul_le_mul_right s (Nat.le_succ m))]

/-- The `T` segments of lines 64–66 partition `[0, N)`: summing any
commutative-monoid-valued function segment by segment equals summing it
over all points.  Requires at least one thread and that the non-final
segments fit inside the data (`(T-1)*s ≤ N`), both of which hold for
`s = N / T`. -/
theorem merged_blocks_eq {M : Type} [AddCommMonoid M] (g : ℕ → M)
    (T s N : ℕ) (hT : 1 ≤ T) (hs : (T - 1) * s ≤ N) :
    (∑ t in Finset.range T,
      ∑ i in Finset.Ico (segmentStart s t) (segmentEnd T s N t), g i)
      = ∑ i in Finset.range N, g i := by
  obtain ⟨T', rfl⟩ : ∃ T', T = T' + 1 := ⟨T - 1, by omega⟩
  rw [Finset.sum_range_succ]
  have hstep : ∀ t ∈ Finset.range T',
      (∑ i in Finset.Ico (segmentStart s t) (segmentEnd (T' + 1) s N t), g i)
        = ∑ i in Finset.Ico (t * s) ((t + 1) * s), g i := by
    intro t ht
    have ht' : t ≠ T' := Nat.ne_of_lt (Finset.mem_range.mp ht)
    rw [segmentStart, segmentEnd, if_neg (by simpa using ht')]
  rw [Finset.sum_congr rfl hstep, sum_blocks]
  have hlast : segmentEnd (T' + 1) s N T' = N := by
    rw [segmentEnd, if_pos (by omega)]
  rw [segmentStart, hlast]
  rw [Finset.sum_Ico_consecutive g (Nat.zero_le _) (by simpa using hs)]
  rw [Finset.range_eq_Ico]

/-- The segment bounds are ordered, so each thread's loop is well formed. -/
theorem segment_le (T s N t : ℕ) (_ht : t < T) (hs : (T - 1) * s ≤ N) :
    segmentStart s t ≤ segmentEnd T s N t := by
  rw [segmentStart, segmentEnd]
  by_cases h : t = T - 1
  · rw [if_pos h, h]
    exact hs
  · rw [if_neg h]
    exact Nat.mul_le_mul_right s (Nat.le_succ t)

/-- Merging the per-thread counts over any thread count `T ≥ 1` yields
the sequential reference counts: the partition is exhaustive and
non-overlapping, and `ℕ` addition is associative and commutative. -/
theorem mergedCounts_eq_countsOf (D K N T s : ℕ) (data cent : ℕ → ℕ → ℚ)
    (hT : 1 ≤ T) (hs : (T - 1) * s ≤ N) (j : ℕ) :
    mergedCounts D K data cent T s N j = countsOf D K N data cent j := by
  unfold mergedCounts countsOf
  have h1 : ∀ t ∈ Finset.range T,
      (threadLocal D K data cent (segmentStart s t) (segmentEnd T s N t)).2 j
        = ∑ i in Finset.Ico (segmentStart s t) (segmentEnd T s N t),
            if closestCluster D K data cent i = j then 1 else 0 := by
    intro t ht
    rw [threadLocal_counts D K data cent _ _ j
        (segment_le T s N t (Finset.mem_range.mp ht) hs)]
    exact Finset.card_filter _ _
  rw [Finset.sum_congr rfl h1, merged_blocks_eq _ T s N hT hs,
    Finset.card_filter]

/-- Merging the per-thread sum matrices over any thread count `T ≥ 1`
yields the sequential reference per-cluster sums. -/
theorem mergedSum_eq_sumOf (D K N T s : ℕ) (data cent : ℕ → ℕ → ℚ)
    (hT : 1 ≤ T) (hs : (T - 1) * s ≤ N) (j d : ℕ) :
    mergedSum D K data cent T s N j d = sumOf D K N data cent j d := by
  unfold mergedSum sumOf
  have h1 : ∀ t ∈ Finset.range T,
      (threadLocal D K data cent (segmentStart s t) (segmentEnd T s N t)).1 j d
        = ∑ i in Finset.Ico (segmentStart s t) (segmentEnd T s N t),
            if closestCluster D K data cent i = j then data i d else 0 := by
    intro t ht
    rw [threadLocal_sums D K data cent _ _ j d
        (segment_le T s N t (Finset.mem_range.mp ht) hs)]
    exact Finset.sum_filter _ _
  rw [Finset.sum_congr rfl h1, merged_blocks_eq _ T s N hT hs,
    Finset.sum_filter]

/-! ## Facts about the thread-count formula -/

/-- Whenever `N ≥ 100`, the effective thread count is at least 1 (the
`max 1` of line 54 guards the `omp_get_max_threads` factor). -/
theorem iterateThreads_pos (ompMax N : ℕ) (hN : minVectorsPerThread ≤ N) :
    1 ≤ iterateThreads ompMax N := by
  unfold iterateThreads effectiveThreads numThreads
  have h1 : 1 ≤ N / minVectorsPerThread := (Nat.one_le_div_iff (by norm_num [minVectorsPerThread])).mpr hN
  exact le_min (le_max_left 1 ompMax) h1

/-- The segment size of a run satisfies the partition precondition. -/
theorem iterateSeg_fits (ompMax N : ℕ) :
    (iterateThreads ompMax N - 1) * iterateSegSize ompMax N ≤ N := by
  unfold iterateSegSize nominalSegmentSize
  set T := iterateThreads ompMax N
  calc (T - 1) * (N / T) ≤ T * (N / T) :=
        Nat.mul_le_mul_right _ (Nat.sub_le T 1)
    _ ≤ N := by rw [Nat.mul_comm]; exact Nat.div_mul_le_self N T

/-- `Iterate`'s counts equal the sequential reference whenever the
partitioner produces at least one thread. -/
theorem iterateCounts_eq_countsOf (D K N ompMax : ℕ)
    (data cent : ℕ → ℕ → ℚ) (hN : minVectorsPerThread ≤ N) (j : ℕ) :
    iterateCounts D K N ompMax data cent j = countsOf D K N data cent j :=
  mergedCounts_eq_countsOf D K N _ _ data cent
    (iterateThreads_pos ompMax N hN) (iterateSeg_fits ompMax N) j

/-- `Iterate`'s accumulated sums equal the sequential reference whenever
the partitioner produces at least one thread. -/
theorem iterateAccumSum_eq_sumOf (D K N ompMax : ℕ)
    (data cent : ℕ → ℕ → ℚ) (hN : minVectorsPerThread ≤ N) (j d : ℕ) :
    iterateAccumSum D K N ompMax data cent j d = sumOf D K N data cent j d :=
  mergedSum_eq_sumOf D K N _ _ data cent
    (iterateThreads_pos ompMax N hN) (iterateSeg_fits ompMax N) j d

/-- Each point contributes to exactly one cluster, so the sequential
reference counts sum to `N`. -/
theorem sum_countsOf (D K N : ℕ) (data cent : ℕ → ℕ → ℚ) (hK : 0 < K) :
    (∑ j in Finset.range K, countsOf D K N data cent j) = N := by
  unfold countsOf
  have h1 : ∀ j ∈ Finset.range K,
      ((Finset.range N).filter (fun i => closestCluster D K data cent i = j)).card
        = ∑ i in Finset.range N,
            if closestCluster D K data cent i = j then 1 else 0 :=
    fun j _ => Finset.card_filter _ _
  rw [Finset.sum_congr rfl h1, Finset.sum_comm]
  have h2 : ∀ i ∈ Finset.range N,
      (∑ j in Finset.range K,
        if closestCluster D K data cent i = j then 1 else 0) = 1 := by
    intro i _
    rw [Finset.sum_ite_eq,
      if_pos (Finset.mem_range.mpr (closestCluster_lt D K data cent i hK))]
  rw [Finset.sum_congr rfl h2, Finset.sum_const, smul_eq_mul, mul_one,
    Finset.card_range]

/-! ## The distortion loop is a plain sum -/

theorem foldl_add_eq_sum (g : ℕ → ℝ) :
    ∀ (K : ℕ) (a : ℝ), (List.range K).foldl (fun acc j => acc + g j) a
      = a + ∑ j in Finset.range K, g j := by
  intro K
  induction K with
  | zero => intro a; simp
  | succ K ih =>
    intro a
    rw [List.range_succ, List.foldl_append, ih, List.foldl_cons,
      List.foldl_nil, Finset.sum_range_succ, add_assoc]

theorem iterateShift_eq_sum (D K : ℕ) (cent nc : ℕ → ℕ → ℚ) :
    iterateShift D K cent nc
      = ∑ j in Finset.range K, clusterShiftTerm D cent nc j := by
  unfold iterateShift
  rw [foldl_add_eq_sum, zero_add]

/-! ## The assignment only reads centroid entries `j < K`, `d < D` -/

theorem findClosest_congr (K : ℕ) (f g : ℕ → ℚ) (h : ∀ j < K, f j = g j) :
    findClosest K f = findClosest K g := by
  unfold findClosest
  suffices H : ∀ (l : List ℕ), (∀ j ∈ l, f j = g j) →
      ∀ acc, l.foldl (assignStep f) acc = l.foldl (assignStep g) acc by
    exact H (List.range K) (fun j hj => h j (List.mem_range.mp hj)) (none, K)
  intro l
  induction l with
  | nil => intro _ acc; rfl
  | cons a l ih =>
    intro hl acc
    rw [List.foldl_cons, List.foldl_cons]
    have ha : f a = g a := hl a (List.mem_cons_self a l)
    have hstep : assignStep f acc a = assignStep g acc a := by
      obtain ⟨o, i⟩ := acc
      cases o with
      | none => simp only [assignStep, ha]
      | some m => simp only [assignStep, ha]
    rw [hstep]
    exact ih (fun j hj => hl j (List.mem_cons_of_mem a hj)) _

theorem distTo_congr (D K : ℕ) (cent cent' : ℕ → ℕ → ℚ) (x : ℕ → ℚ)
    (h : ∀ j < K, ∀ d < D, cent j d = cent' j d) (j : ℕ) (hj : j < K) :
    distTo D cent x j = distTo D cent' x j := by
  unfold distTo pointDist centroidNorms dot
  have hd : ∀ d ∈ Finset.range D, cent j d = cent' j d :=
    fun d hdm => h j hj d (Finset.mem_range.mp hdm)
  have h1 : (∑ d in Finset.range D, x d * cent j d)
      = ∑ d in Finset.range D, x d * cent' j d :=
    Finset.sum_congr rfl (fun d hdm => by rw [hd d hdm])
  have h2 : (∑ d in Finset.range D, cent j d * cent j d)
      = ∑ d in Finset.range D, cent' j d * cent' j d :=
    Finset.sum_congr rfl (fun d hdm => by rw [hd d hdm])
  rw [h1, h2]

theorem closestCluster_congr (D K : ℕ) (data cent cent' : ℕ → ℕ → ℚ)
    (h : ∀ j < K, ∀ d < D, cent j d = cent' j d) (i : ℕ) :
    closestCluster D K data cent i = closestCluster D K data cent' i := by
  unfold closestCluster
  rw [findClosest_congr K _ _ (fun j hj => distTo_congr D K cent cent' (data i) h j hj)]

/-! ## Merge order is immaterial for the integer counts -/

theorem list_range_map_sum (loc : ℕ → ℕ) :
    ∀ n, ((List.range n).map loc).sum = ∑ t in Finset.range n, loc t := by
  intro n
  induction n with
  | zero => simp
  | succ n ih =>
    rw [List.range_succ, List.map_append, List.sum_append, ih,
      Finset.sum_range_succ]
    simp

theorem orderedMergedCounts_perm (D K : ℕ) (data cent : ℕ → ℕ → ℚ)
    (order : List ℕ) (T s N j : ℕ) (h : order.Perm (List.range T)) :
    orderedMergedCounts D K data cent order T s N j
      = mergedCounts D K data cent T s N j := by
  unfold orderedMergedCounts mergedCounts
  rw [List.Perm.sum_eq (List.Perm.map _ h), list_range_map_sum]

/-! ## A cluster with a zero count has a zero accumulated column -/

theorem threadLocal_count_zero_sum (D K : ℕ) (data cent : ℕ → ℕ → ℚ)
    (lo hi j d : ℕ) (h : (threadLocal D K data cent lo hi).2 j = 0) :
    (threadLocal D K data cent lo hi).1 j d = 0 := by
  unfold threadLocal at h ⊢
  rw [foldl_accumPoint_counts] at h
  rw [foldl_accumPoint_sums]
  simp only [zero_add] at h ⊢
  rw [Finset.card_eq_zero] at h
  rw [h, Finset.sum_empty]

theorem mergedCount_zero_sum (D K : ℕ) (data cent : ℕ → ℕ → ℚ)
    (T s N j d : ℕ) (h : mergedCounts D K data cent T s N j = 0) :
    mergedSum D K data cent T s N j d = 0 := by
  unfold mergedCounts at h
  unfold mergedSum
  refine Finset.sum_eq_zero (fun t ht => ?_)
  exact threadLocal_count_zero_sum D K data cent _ _ j d
    (Finset.sum_eq_zero_iff.mp h t ht)

theorem accumPoint_congr (D K : ℕ) (data cent cent' : ℕ → ℕ → ℚ)
    (h : ∀ i, closestCluster D K data cent i = closestCluster D K data cent' i) :
    accumPoint D K data cent = accumPoint D K data cent' := by
  funext acc i
  unfold accumPoint
  rw [h i]

theorem mergedCounts_congr (D K : ℕ) (data cent cent' : ℕ → ℕ → ℚ)
    (T s N j : ℕ)
    (h : ∀ i, closestCluster D K data cent i = closestCluster D K data cent' i) :
    mergedCounts D K data cent T s N j = mergedCounts D K data cent' T s N j := by
  unfold mergedCounts threadLocal
  rw [accumPoint_congr D K data cent cent' h]

/-! ## Single-thread run of the concrete scenario -/

/-- The counts a single-thread (`T = 1`) run produces on the scenario. -/
def scenarioCounts1 : ℕ → ℕ :=
  mergedCounts 2 2 scenarioData scenarioCentroids 1 4 4

/-- The accumulated sums a single-thread run produces on the scenario. -/
def scenarioSums1 : ℕ → ℕ → ℚ :=
  mergedSum 2 2 scenarioData scenarioCentroids 1 4 4

/-- The finalised new centroids of a single-thread run on the scenario. -/
def scenarioNewCentroids1 : ℕ → ℕ → ℚ :=
  newCentroidsFrom scenarioCounts1 scenarioSums1

/-! ## Claims -/

/-- **C1** (code bug).  The claim states the effective thread count is
clamped to at least 1.  The source (line 56) computes
`effectiveThreads = min(numThreads, points / 100)` with no clamp: for
`points = 50` and `omp_get_max_threads() = 8` it is `0`, after which
line 57 divides `points` by it — undefined behaviour in C++ — and the
parallel region is requested with `num_threads(0)`.  The `max(1, ·)` of
line 54 guards only the wrong factor. -/
theorem partitioner_can_choose_zero_threads :
    numThreads 8 = 8 ∧ effectiveThreads (numThreads 8) 50 = 0 ∧
    ¬ 1 ≤ effectiveThreads (numThreads 8) 50 := by
  decide

/-- **C2** (confirmed).  For every point `i` processed with `K > 0`
centroids, the assigned index is a valid cluster index, the distance the
code evaluates for each centroid `j` — the decomposition
`‖x‖² + ‖c_j‖² − 2⟨x,c_j⟩` of line 84 using the cached norms — equals
the squared Euclidean distance in exact arithmetic, and the assigned
index minimises that distance over all `K` centroids. -/
theorem iterate_assigns_nearest_centroid (D K : ℕ) (data cent : ℕ → ℕ → ℚ)
    (i : ℕ) (hK : 0 < K) :
    closestCluster D K data cent i < K ∧
    (∀ j < K, distTo D cent (data i) j = sqDist D (data i) (cent j)) ∧
    (∀ j < K, sqDist D (data i) (cent (closestCluster D K data cent i))
      ≤ sqDist D (data i) (cent j)) := by
  obtain ⟨h1, _, h3, _⟩ := findClosest_spec K (distTo D cent (data i)) hK
  refine ⟨h1, fun j _ => distTo_eq_sqDist D cent (data i) j, fun j hj => ?_⟩
  rw [← distTo_eq_sqDist, ← distTo_eq_sqDist]
  exact h3 j hj

theorem iterate_assigns_nearest_centroid_witness :
    0 < 2 ∧
    (closestCluster 1 2 zeroMat rampCent 0 < 2 ∧
     (∀ j < 2, distTo 1 rampCent (zeroMat 0) j
        = sqDist 1 (zeroMat 0) (rampCent j)) ∧
     (∀ j < 2, sqDist 1 (zeroMat 0) (rampCent (closestCluster 1 2 zeroMat rampCent 0))
        ≤ sqDist 1 (zeroMat 0) (rampCent j))) :=
  ⟨by decide, iterate_assigns_nearest_centroid 1 2 zeroMat rampCent 0 (by decide)⟩

/-- **C4** (confirmed).  On exact-arithmetic ties the lowest-indexed
minimal centroid wins: the strict `<` of line 86 means a later equal
distance never overwrites the incumbent, so any centroid whose distance
equals the winner's has an index `≥` the winner's.  The assignment
`closestCluster` takes no thread parameter: per-point assignment is
independent of the thread count by construction. -/
theorem iterate_tie_break_lowest_index (D K : ℕ) (data cent : ℕ → ℕ → ℚ)
    (i : ℕ) (hK : 0 < K) :
    closestCluster D K data cent i < K ∧
    ∀ j < K, sqDist D (data i) (cent j)
        = sqDist D (data i) (cent (closestCluster D K data cent i)) →
      closestCluster D K data cent i ≤ j := by
  obtain ⟨h1, _, _, h4⟩ := findClosest_spec K (distTo D cent (data i)) hK
  refine ⟨h1, fun j _ heq => ?_⟩
  by_contra hlt
  push_neg at hlt
  have hstrict := h4 j hlt
  rw [distTo_eq_sqDist, distTo_eq_sqDist, heq] at hstrict
  exact absurd hstrict (lt_irrefl _)

/-- A pair of equidistant centroids (both at squared distance 1 from the
origin), used to witness the tie-break theorem. -/
def tieCent : ℕ → ℕ → ℚ := fun j _ => if j = 0 then 1 else -1

theorem iterate_tie_break_lowest_index_witness :
    0 < 2 ∧
    (closestCluster 1 2 zeroMat tieCent 0 < 2 ∧
     ∀ j < 2, sqDist 1 (zeroMat 0) (tieCent j)
        = sqDist 1 (zeroMat 0) (tieCent (closestCluster 1 2 zeroMat tieCent 0)) →
      closestCluster 1 2 zeroMat tieCent 0 ≤ j) :=
  ⟨by decide, iterate_tie_break_lowest_index 1 2 zeroMat tieCent 0 (by decide)⟩

/-- **C3**, counterexample.  As stated ("for every input with `N > 0`
and `K > 0`") the claim fails on the code: with `N = 50 < 100` the
partitioner chooses zero threads (and line 57 divides by zero, C++
undefined behaviour); no thread processes any point, so the counts sum
to `0`, not `50`. -/
theorem counts_sum_fails_small_N :
    0 < (50 : ℕ) ∧ 0 < (1 : ℕ) ∧
    iterateThreads 8 50 = 0 ∧
    (∑ j in Finset.range 1, iterateCounts 1 1 50 8 zeroMat zeroMat j) ≠ 50 := by
  refine ⟨by decide, by decide, by decide, ?_⟩
  have h : (∑ j in Finset.range 1, iterateCounts 1 1 50 8 zeroMat zeroMat j) = 0 := by
    norm_num [iterateCounts, mergedCounts, iterateThreads, effectiveThreads,
      numThreads, minVectorsPerThread]
  rw [h]
  decide

/-- **C3** as amended: whenever the partitioner produces at least one
thread — i.e. `N ≥ 100` (`minVectorsPerThread`), the claim's `N > 0`
strengthened exactly as the zero-thread counterexample forces — and
`K > 0`, the counts of an `Iterate` call sum to exactly `N`: the
segments partition the points and every point lands in exactly one
cluster. -/
theorem counts_sum_eq_points (D K N ompMax : ℕ) (data cent : ℕ → ℕ → ℚ)
    (hK : 0 < K) (hN : minVectorsPerThread ≤ N) :
    (∑ j in Finset.range K, iterateCounts D K N ompMax data cent j) = N := by
  rw [Finset.sum_congr rfl
    (fun j _ => iterateCounts_eq_countsOf D K N ompMax data cent hN j)]
  exact sum_countsOf D K N data cent hK

theorem counts_sum_eq_points_witness :
    0 < 1 ∧ minVectorsPerThread ≤ 100 ∧
    (∑ j in Finset.range 1, iterateCounts 1 1 100 1 zeroMat zeroMat j) = 100 :=
  ⟨by decide, by decide,
   counts_sum_eq_points 1 1 100 1 zeroMat zeroMat (by decide) (by decide)⟩

/-- **C5** (confirmed).  The scalar `Iterate` returns — the `cNorm`
accumulation of lines 116–121 — equals the sum over all `K` clusters of
the Euclidean (L2) norm of the difference between input centroid column
`j` and the finalised new centroid column `j`. -/
theorem iterate_shift_is_sum_of_norms (D K N ompMax : ℕ)
    (data cent : ℕ → ℕ → ℚ) :
    iterateTotalShift D K N ompMax data cent
      = ∑ j in Finset.range K, Real.sqrt (∑ d in Finset.range D,
          ((cent j d : ℝ)
            - (iterateNewCentroids D K N ompMax data cent j d : ℝ)) ^ 2) := by
  unfold iterateTotalShift
  rw [iterateShift_eq_sum]
  refine Finset.sum_congr rfl (fun j _ => ?_)
  unfold clusterShiftTerm
  congr 1
  push_cast
  rfl

/-- **C6** (confirmed).  After the merge, a cluster with a positive
count gets the accumulated column divided by the count (the mean of its
points), and a cluster with count zero is left untouched — and its
accumulated column is necessarily the zero vector, since no point
contributed to it. -/
theorem normalizer_mean_or_zero (D K N ompMax : ℕ)
    (data cent : ℕ → ℕ → ℚ) (j d : ℕ) :
    iterateNewCentroids D K N ompMax data cent j d
      = if 0 < iterateCounts D K N ompMax data cent j
        then iterateAccumSum D K N ompMax data cent j d
              / (iterateCounts D K N ompMax data cent j : ℚ)
        else 0 := by
  unfold iterateNewCentroids newCentroidsFrom
  by_cases h : 0 < iterateCounts D K N ompMax data cent j
  · rw [if_pos h, if_pos h]
  · rw [if_neg h, if_neg h]
    have hz : iterateCounts D K N ompMax data cent j = 0 := by omega
    unfold iterateCounts at hz
    unfold iterateAccumSum
    exact mergedCount_zero_sum D K data cent _ _ _ j d hz

/-- **C7** (code bug).  The claim demands that `K = 0` or `N = 0` is a
safe no-op.  For `N = 0` the partitioner yields zero threads and line 57
divides zero by zero — undefined behaviour.  For `K = 0` the inner loop
never runs, so `closestCluster` keeps its initialisation value
`clusters` (line 71), here `0`, which is *not* a valid column index of
the zero-column local accumulator: line 94 indexes column `0` of a
`dims × 0` matrix, out of bounds. -/
theorem degenerate_inputs_reach_undefined_behaviour :
    effectiveThreads (numThreads 8) 0 = 0 ∧
    (findClosest 0 (fun _ => (0 : ℚ))).2 = 0 ∧
    ¬ (findClosest 0 (fun _ => (0 : ℚ))).2 < 0 := by
  refine ⟨by decide, rfl, by omega⟩

set_option maxHeartbeats 1600000 in
/-- **C8** (code bug).  The spec's concrete scenario has `N = 4 < 100`
points, so the real call chooses zero threads and line 57 divides by
zero — undefined behaviour — instead of returning anything.  The
expected values of the claim are nevertheless exactly what the
single-thread-equivalent run (`T = 1`, one segment `[0,4)`) of the same
loop body produces: assignments `{0,0,1,1}`, counts `[2,2]`, new
centroids `{(0, 1/2), (5, 11/2)}` and total shift `1`. -/
theorem scenario_crashes_but_expected_values_correct :
    iterateThreads 8 4 = 0 ∧
    closestCluster 2 2 scenarioData scenarioCentroids 0 = 0 ∧
    closestCluster 2 2 scenarioData scenarioCentroids 1 = 0 ∧
    closestCluster 2 2 scenarioData scenarioCentroids 2 = 1 ∧
    closestCluster 2 2 scenarioData scenarioCentroids 3 = 1 ∧
    scenarioCounts1 0 = 2 ∧ scenarioCounts1 1 = 2 ∧
    scenarioNewCentroids1 0 0 = 0 ∧ scenarioNewCentroids1 0 1 = 1/2 ∧
    scenarioNewCentroids1 1 0 = 5 ∧ scenarioNewCentroids1 1 1 = 11/2 ∧
    iterateShift 2 2 scenarioCentroids scenarioNewCentroids1 = 1 := by
  have hnc00 : scenarioNewCentroids1 0 0 = 0 := by
    norm_num [scenarioNewCentroids1, scenarioCounts1, scenarioSums1,
      newCentroidsFrom, mergedCounts, mergedSum, threadLocal, segmentStart,
      segmentEnd, List.range', accumPoint, closestCluster, findClosest,
      List.range_succ, assignStep, distTo, pointDist, centroidNorms, dot,
      Finset.sum_range_succ, scenarioData, scenarioCentroids]
  have hnc01 : scenarioNewCentroids1 0 1 = 1/2 := by
    norm_num [scenarioNewCentroids1, scenarioCounts1, scenarioSums1,
      newCentroidsFrom, mergedCounts, mergedSum, threadLocal, segmentStart,
      segmentEnd, List.range', accumPoint, closestCluster, findClosest,
      List.range_succ, assignStep, distTo, pointDist, centroidNorms, dot,
      Finset.sum_range_succ, scenarioData, scenarioCentroids]
  have hnc10 : scenarioNewCentroids1 1 0 = 5 := by
    norm_num [scenarioNewCentroids1, scenarioCounts1, scenarioSums1,
      newCentroidsFrom, mergedCounts, mergedSum, threadLocal, segmentStart,
      segmentEnd, List.range', accumPoint, closestCluster, findClosest,
      List.range_succ, assignStep, distTo, pointDist, centroidNorms, dot,
      Finset.sum_range_succ, scenarioData, scenarioCentroids]
  have hnc11 : scenarioNewCentroids1 1 1 = 11/2 := by
    norm_num [scenarioNewCentroids1, scenarioCounts1, scenarioSums1,
      newCentroidsFrom, mergedCounts, mergedSum, threadLocal, segmentStart,
      segmentEnd, List.range', accumPoint, closestCluster, findClosest,
      List.range_succ, assignStep, distTo, pointDist, centroidNorms, dot,
      Finset.sum_range_succ, scenarioData, scenarioCentroids]
  have hterm0 : clusterShiftTerm 2 scenarioCentroids scenarioNewCentroids1 0 = 1/2 := by
    unfold clusterShiftTerm
    rw [Finset.sum_range_succ, Finset.sum_range_succ, Finset.sum_range_zero,
      hnc00, hnc01]
    norm_num [scenarioCentroids]
    rw [show (4 : ℝ) = 2 ^ 2 by norm_num,
      Real.sqrt_sq (by norm_num : (0:ℝ) ≤ 2)]
    norm_num
  have hterm1 : clusterShiftTerm 2 scenarioCentroids scenarioNewCentroids1 1 = 1/2 := by
    unfold clusterShiftTerm
    rw [Finset.sum_range_succ, Finset.sum_range_succ, Finset.sum_range_zero,
      hnc10, hnc11]
    norm_num [scenarioCentroids]
    rw [show (4 : ℝ) = 2 ^ 2 by norm_num,
      Real.sqrt_sq (by norm_num : (0:ℝ) ≤ 2)]
    norm_num
  have hshift : iterateShift 2 2 scenarioCentroids scenarioNewCentroids1 = 1 := by
    rw [iterateShift_eq_sum, Finset.sum_range_succ, Finset.sum_range_succ,
      Finset.sum_range_zero, hterm0, hterm1]
    norm_num
  refine ⟨by decide, ?_, ?_, ?_, ?_, ?_, ?_, hnc00, hnc01, hnc10, hnc11, hshift⟩ <;>
    norm_num [scenarioCounts1, mergedCounts, threadLocal, segmentStart,
      segmentEnd, List.range', accumPoint, closestCluster, findClosest,
      List.range_succ, assignStep, distTo, pointDist, centroidNorms, dot,
      Finset.sum_range_succ, scenarioData, scenarioCentroids]

/-- **C9**, counterexample.  As stated ("for every input…") the claim
fails on the code: the scenario dataset with its converged centroids
`{(0,1/2), (5,11/2)}` is an exact fixed point of the update, yet the
call has `N = 4 < 100` points, so the partitioner chooses zero threads
(line 57 divides by zero, undefined behaviour); in the no-thread
degenerate state every count is 0, the new centroids collapse to the
zero vector and the returned shift is `1/2 + √(221)/2 ≥ 1/2`, not `≈ 0`. -/
theorem fixed_point_claim_fails_small_N :
    isFixedPoint 2 2 4 scenarioData convergedCentroids ∧
    iterateThreads 8 4 = 0 ∧
    (1/2 : ℝ) ≤ iterateTotalShift 2 2 4 8 scenarioData convergedCentroids := by
  refine ⟨?_, by decide, ?_⟩
  · unfold isFixedPoint
    norm_num [Nat.forall_lt_succ, countsOf, sumOf, closestCluster, findClosest,
      List.range_succ, assignStep, distTo, pointDist, centroidNorms, dot,
      scenarioData, convergedCentroids, Finset.sum_range_succ, Finset.range_succ,
      Finset.filter_insert, Finset.filter_singleton]
  · have hnc : ∀ j d, iterateNewCentroids 2 2 4 8 scenarioData convergedCentroids j d = 0 := by
      intro j d
      norm_num [iterateNewCentroids, newCentroidsFrom, iterateCounts,
        iterateAccumSum, mergedCounts, mergedSum, iterateThreads,
        effectiveThreads, numThreads, minVectorsPerThread]
    have hterm0 : clusterShiftTerm 2 convergedCentroids
        (iterateNewCentroids 2 2 4 8 scenarioData convergedCentroids) 0 = 1/2 := by
      unfold clusterShiftTerm
      rw [Finset.sum_range_succ, Finset.sum_range_succ, Finset.sum_range_zero,
        hnc 0 0, hnc 0 1]
      norm_num [convergedCentroids]
      rw [show (4 : ℝ) = 2 ^ 2 by norm_num,
        Real.sqrt_sq (by norm_num : (0:ℝ) ≤ 2)]
      norm_num
    have hterm1 : (0:ℝ) ≤ clusterShiftTerm 2 convergedCentroids
        (iterateNewCentroids 2 2 4 8 scenarioData convergedCentroids) 1 :=
      Real.sqrt_nonneg _
    unfold iterateTotalShift
    rw [iterateShift_eq_sum, Finset.sum_range_succ, Finset.sum_range_succ,
      Finset.sum_range_zero, hterm0]
    linarith

/-- **C9** as amended: for every input on which the call actually runs
at least one thread — `N ≥ 100`, exactly the restriction the
zero-thread counterexample forces — a fixed point of the update is
stationary: the returned total shift is exactly `0` (in exact
arithmetic), the new centroids reproduce the input centroids, and a
subsequent `Iterate` call started from them produces the same counts. -/
theorem fixed_point_iterate_stationary (D K N ompMax : ℕ)
    (data cent : ℕ → ℕ → ℚ) (_hK : 0 < K) (hN : minVectorsPerThread ≤ N)
    (hfix : isFixedPoint D K N data cent) :
    iterateTotalShift D K N ompMax data cent = 0 ∧
    (∀ j < K, ∀ d < D, iterateNewCentroids D K N ompMax data cent j d = cent j d) ∧
    (∀ j, iterateCounts D K N ompMax data
        (iterateNewCentroids D K N ompMax data cent) j
      = iterateCounts D K N ompMax data cent j) := by
  have hnc : ∀ j < K, ∀ d < D,
      iterateNewCentroids D K N ompMax data cent j d = cent j d := by
    intro j hj d hd
    unfold iterateNewCentroids newCentroidsFrom
    rw [iterateCounts_eq_countsOf D K N ompMax data cent hN j,
      if_pos (hfix j hj).1,
      iterateAccumSum_eq_sumOf D K N ompMax data cent hN j d,
      ← (hfix j hj).2 d hd]
  have hshift : iterateTotalShift D K N ompMax data cent = 0 := by
    unfold iterateTotalShift
    rw [iterateShift_eq_sum]
    refine Finset.sum_eq_zero (fun j hj => ?_)
    unfold clusterShiftTerm
    have hz : (∑ d in Finset.range D,
        (cent j d - iterateNewCentroids D K N ompMax data cent j d) ^ 2) = (0:ℚ) := by
      refine Finset.sum_eq_zero (fun d hd => ?_)
      rw [hnc j (Finset.mem_range.mp hj) d (Finset.mem_range.mp hd)]
      ring
    rw [hz]
    simp
  refine ⟨hshift, hnc, fun j => ?_⟩
  unfold iterateCounts
  exact mergedCounts_congr D K data _ cent _ _ _ j
    (closestCluster_congr D K data _ cent hnc)

/-- The all-zero configuration on 100 points is a fixed point: the
single cluster attracts every point and its centroid is their mean. -/
theorem zeroFixedPoint : isFixedPoint 1 1 100 zeroMat zeroMat := by
  intro j hj
  have hj0 : j = 0 := by omega
  subst hj0
  have hfilter : (Finset.range 100).filter
      (fun i => closestCluster 1 1 zeroMat zeroMat i = 0) = Finset.range 100 :=
    Finset.filter_true_of_mem (fun i _ => rfl)
  constructor
  · unfold countsOf
    rw [hfilter]
    simp
  · intro d _
    unfold sumOf countsOf
    rw [hfilter]
    simp [zeroMat]

theorem fixed_point_iterate_stationary_witness :
    (0 < 1 ∧ minVectorsPerThread ≤ 100 ∧ isFixedPoint 1 1 100 zeroMat zeroMat) ∧
    (iterateTotalShift 1 1 100 1 zeroMat zeroMat = 0 ∧
     (∀ j < 1, ∀ d < 1, iterateNewCentroids 1 1 100 1 zeroMat zeroMat j d = zeroMat j d) ∧
     (∀ j, iterateCounts 1 1 100 1 zeroMat
         (iterateNewCentroids 1 1 100 1 zeroMat zeroMat) j
       = iterateCounts 1 1 100 1 zeroMat zeroMat j)) :=
  ⟨⟨by decide, by decide, zeroFixedPoint⟩,
   fixed_point_iterate_stationary 1 1 100 1 zeroMat zeroMat
     (by decide) (by decide) zeroFixedPoint⟩

/-- **C10** (confirmed).  For a fixed input with `K > 0` and at least
`minVectorsPerThread` points, the counts vector is bit-for-bit identical
across runs that differ in the host thread count and in the order in
which the `omp critical` merge sections execute: every run's counts
equal the sequential reference counts, because the segments partition
the points and `ℕ` addition is commutative and associative.  (No
floating-point tolerance is involved, unlike for `newCentroids`.) -/
theorem counts_thread_and_merge_order_invariant (D K N : ℕ)
    (data cent : ℕ → ℕ → ℚ) (ompMax1 ompMax2 : ℕ) (order1 order2 : List ℕ)
    (_hK : 0 < K) (hN : minVectorsPerThread ≤ N)
    (h1 : order1.Perm (List.range (iterateThreads ompMax1 N)))
    (h2 : order2.Perm (List.range (iterateThreads ompMax2 N))) (j : ℕ) :
    orderedMergedCounts D K data cent order1
        (iterateThreads ompMax1 N) (iterateSegSize ompMax1 N) N j
      = orderedMergedCounts D K data cent order2
        (iterateThreads ompMax2 N) (iterateSegSize ompMax2 N) N j := by
  rw [orderedMergedCounts_perm D K data cent order1 _ _ N j h1,
    orderedMergedCounts_perm D K data cent order2 _ _ N j h2,
    mergedCounts_eq_countsOf D K N _ _ data cent
      (iterateThreads_pos ompMax1 N hN) (iterateSeg_fits ompMax1 N) j,
    mergedCounts_eq_countsOf D K N _ _ data cent
      (iterateThreads_pos ompMax2 N hN) (iterateSeg_fits ompMax2 N) j]

theorem counts_thread_and_merge_order_invariant_witness :
    (0 < 1 ∧ minVectorsPerThread ≤ 200 ∧
     [0].Perm (List.range (iterateThreads 1 200)) ∧
     [1, 0].Perm (List.range (iterateThreads 2 200))) ∧
    orderedMergedCounts 1 1 zeroMat zeroMat [0]
        (iterateThreads 1 200) (iterateSegSize 1 200) 200 0
      = orderedMergedCounts 1 1 zeroMat zeroMat [1, 0]
        (iterateThreads 2 200) (iterateSegSize 2 200) 200 0 :=
  ⟨⟨by decide, by decide, by decide, by decide⟩,
   counts_thread_and_merge_order_invariant 1 1 200 zeroMat zeroMat 1 2 [0] [1, 0]
     (by decide) (by decide) (by decide) (by decide) 0⟩

end NaiveKMeans
